import Mathlib

/-!
Shallow embedding of the `capacity_builder` crate (src/src/lib.rs): a two-pass
"measure then fill" builder for strings and byte buffers.  Rust strings are
modelled byte-wise as lists of naturals; `usize` arithmetic is `Nat` except in
the one subtraction where Rust would wrap (release) or panic (debug), which is
modelled with an explicit wrap modulo 2^64.
-/

namespace CapacityBuilder

/-- A Rust `&str` / byte buffer, modelled as its list of bytes. -/
abbrev Str := List Nat

/-- `str::find`: byte index of the first occurrence of `pat` in `s`
(`some 0` for the empty pattern, as in Rust). -/
def findSub (s pat : Str) : Option Nat :=
  match s with
  | [] => if pat.isPrefixOf ([] : Str) then some 0 else none
  | c :: rest =>
    if pat.isPrefixOf (c :: rest) then some 0
    else (findSub rest pat).map (· + 1)

/-- The fill-pass scan-and-splice loop of `append_with_replace`
(`Mode::Text` branch, lib.rs 640-648), fuel-limited: each iteration finds the
next occurrence of `f`, keeps the text before it, emits `t`, and continues
past the match; `none` means the fuel ran out (the Rust loop diverges when
`f` is empty). -/
def replaceGo (fuel : Nat) (rest f t : Str) : Option Str :=
  match fuel with
  | 0 => none
  | fuel + 1 =>
    match findSub rest f with
    | none => some rest
    | some pos =>
      (replaceGo fuel (rest.drop (pos + f.length)) f t).map
        (fun tail => rest.take pos ++ t ++ tail)

/-- `str::match_indices(pat).count()`: non-overlapping left-to-right matches;
an empty pattern matches at every byte boundary, so it advances by one. -/
def matchCountGo (fuel : Nat) (rest pat : Str) : Nat :=
  match fuel with
  | 0 => 0
  | fuel + 1 =>
    match findSub rest pat with
    | none => 0
    | some pos => 1 + matchCountGo fuel (rest.drop (pos + max pat.length 1)) pat

/-- `value.match_indices(pat).count()` with enough fuel for every match. -/
def matchIndicesCount (s pat : Str) : Nat :=
  matchCountGo (s.length + 1) s pat

/-- `usize` width. -/
def W : Nat := 2 ^ 64

/-- Wrapping `usize` subtraction (Rust release semantics; debug builds panic
on underflow). -/
def usizeSub (a b : Nat) : Nat := (a + (W - b % W)) % W

/-- `calculate_capacity` inside `append_with_replace` (lib.rs 605-616).
Note the source counts `value.match_indices(value)` — occurrences of the
source within itself — not occurrences of `from`. -/
def calculateCapacity (value f t : Str) : Nat :=
  if f.length = t.length then value.length
  else
    let count := matchIndicesCount value value
    if t.length > f.length then value.length + count * (t.length - f.length)
    else usizeSub value.length (count * (f.length - t.length))

/-- Occurrence count the specification prescribes: non-overlapping,
left-to-right matches of `f` within `value`. -/
def specOccurrences (value f : Str) : Nat := matchIndicesCount value f

/-- The capacity formula as the specification states it, with `occurrences`
counting matches of `from` within `source`. -/
def specReplaceCapacity (value f t : Str) : Nat :=
  if f.length = t.length then value.length
  else if t.length > f.length then
    value.length + specOccurrences value f * (t.length - f.length)
  else
    value.length - specOccurrences value f * (f.length - t.length)

/-- Loop body of the `count_digits!` macro, fuel-limited (`n` itself is
enough fuel: the value loses a digit per division). -/
def digitLoopGo : Nat → Nat → Nat
  | 0, _ => 0
  | fuel + 1, n => if n = 0 then 0 else 1 + digitLoopGo fuel (n / 10)

/-- The `count_digits!` macro (lib.rs 12-26) applied to an integer value:
zero yields 1; otherwise the loop `while value > 0` runs — and for a
negative signed value it never runs, yielding 0. -/
def countDigits (v : Int) : Nat :=
  if v = 0 then 1
  else if v > 0 then digitLoopGo v.toNat v.toNat
  else 0

/-- Decimal digits of a natural, most significant first (empty for 0),
fuel-limited like `digitLoopGo`. -/
def natDigitsGo : Nat → Nat → Str
  | 0, _ => []
  | fuel + 1, n => if n = 0 then [] else natDigitsGo fuel (n / 10) ++ [48 + n % 10]

/-- Decimal digits of a natural, most significant first (empty for 0). -/
def natDigits (n : Nat) : Str := natDigitsGo n n

/-- Decimal text of a natural (`"0"` for 0). -/
def natToDec (n : Nat) : Str :=
  if n = 0 then [48] else natDigits n

/-- The text `itoa` produces for an integer: optional `'-'` (byte 45) then
the decimal digits (lib.rs 50-56). -/
def itoaStr (v : Int) : Str :=
  if v < 0 then 45 :: natToDec (-v).toNat else natToDec v.toNat

/-- `to_be_bytes` for a `width`-byte unsigned value: most significant byte
first. -/
def beBytes : Nat → Nat → Str
  | 0, _ => []
  | w + 1, n => beBytes w (n / 256) ++ [n % 256]

/-- `to_le_bytes` for a `width`-byte unsigned value: least significant byte
first. -/
def leBytes : Nat → Nat → Str
  | 0, _ => []
  | w + 1, n => n % 256 :: leBytes w (n / 256)

/-- A `StringAppendableValue`: its reported `byte_len` and the bytes its
`push_to` / `write_to_formatter` emit.  For the built-in implementers the two
agree, but the protocol lets them diverge, so the model carries both. -/
structure SVal where
  byteLen : Nat
  out : Str
  deriving DecidableEq, Repr

/-- The `StringAppendableValue` implementation the `impl_appendable_for_int!`
macro generates (lib.rs 45-64): `byte_len` is `count_digits!`, `push_to`
writes the `itoa` text. -/
def intSVal (v : Int) : SVal :=
  { byteLen := countDigits v, out := itoaStr v }

/-- One append operation of a `StringBuilder` build routine.  The
`ownedUnsafe` producer closure is modelled by the text it would return. -/
inductive SOp where
  | value : SVal → SOp
  | withReplace : Str → Str → Str → SOp
  | ownedUnsafe : Nat → Str → SOp
  deriving DecidableEq, Repr

/-- The external `std::fmt::Formatter` sink: bytes written so far and the
index of the next `write_str` call (consulted by the failure oracle). -/
structure FmtSink where
  written : Str
  wIdx : Nat
  deriving DecidableEq, Repr

/-- `Mode` (lib.rs 523-528).  `std::fmt::Error` is a unit struct, so the
stored error of `FormatError` carries no data. -/
inductive SMode where
  | capacity : SMode
  | text : Str → SMode
  | format : SMode
  | formatError : SMode
  deriving DecidableEq, Repr

/-- A `StringBuilder`: running capacity plus the current mode.  The `Format`
sink is threaded separately (it is externally owned in the source). -/
structure SBuilder where
  capacity : Nat
  mode : SMode
  deriving DecidableEq, Repr

/-- Observable effects of one append: how many times an `ownedUnsafe`
producer closure ran, the bytes pushed into the container, and the bytes
written to the external sink. -/
structure Trace where
  producerCalls : Nat
  bufWrites : Str
  sinkWrites : Str
  deriving DecidableEq, Repr

/-- `Formatter::write_str`: the oracle says whether the call at this write
index fails; a failed call writes nothing. -/
def fmtWriteStr (oracle : Nat → Bool) (sink : FmtSink) (s : Str) :
    FmtSink × Bool :=
  if oracle sink.wIdx then ({ sink with wIdx := sink.wIdx + 1 }, false)
  else ({ written := sink.written ++ s, wIdx := sink.wIdx + 1 }, true)

/-- `format_with_replace` (lib.rs 618-637), fuel-limited: scan-and-splice
against the sink, accumulating the written size; a failed `write_str`
propagates the error (the sink keeps any earlier writes). -/
def fmtReplaceGo (oracle : Nat → Bool) (fuel : Nat) (sink : FmtSink)
    (rest f t : Str) (sizeAcc : Nat) : Option (FmtSink × Except Unit Nat) :=
  match fuel with
  | 0 => none
  | fuel + 1 =>
    match findSub rest f with
    | none =>
      let (sink1, ok) := fmtWriteStr oracle sink rest
      if ok then some (sink1, .ok (sizeAcc + rest.length))
      else some (sink1, .error ())
    | some pos =>
      let (sink1, ok1) := fmtWriteStr oracle sink (rest.take pos)
      if ok1 then
        let (sink2, ok2) := fmtWriteStr oracle sink1 t
        if ok2 then
          fmtReplaceGo oracle fuel sink2 (rest.drop (pos + f.length)) f t
            (sizeAcc + pos + t.length)
        else some (sink2, .error ())
      else some (sink1, .error ())

/-- One append dispatch of `StringBuilder`, covering `append_value`
(lib.rs 703-723), `append_with_replace` (604-665) and `append_owned_unsafe`
(672-701) in each of the four modes.  `none` marks divergence of the
scan-and-splice loops (empty `from`). -/
def appendStep (oracle : Nat → Bool) (st : SBuilder) (sink : FmtSink)
    (op : SOp) : Option (SBuilder × FmtSink × Trace) :=
  match op with
  | .value v =>
    match st.mode with
    | .text buf =>
      some ({ st with mode := .text (buf ++ v.out) }, sink, ⟨0, v.out, []⟩)
    | .capacity =>
      some ({ st with capacity := st.capacity + v.byteLen }, sink, ⟨0, [], []⟩)
    | .format =>
      let (sink1, ok) := fmtWriteStr oracle sink v.out
      if ok then
        some (⟨st.capacity + v.byteLen, .format⟩, sink1, ⟨0, [], v.out⟩)
      else
        some (⟨st.capacity + v.byteLen, .formatError⟩, sink1, ⟨0, [], []⟩)
    | .formatError =>
      some ({ st with capacity := st.capacity + v.byteLen }, sink, ⟨0, [], []⟩)
  | .withReplace s f t =>
    match st.mode with
    | .text buf =>
      (replaceGo (s.length + 1) s f t).map fun w =>
        ({ st with mode := .text (buf ++ w) }, sink, ⟨0, w, []⟩)
    | .format =>
      (fmtReplaceGo oracle (s.length + 1) sink s f t 0).map fun r =>
        match r with
        | (sink1, .ok size) =>
          (⟨st.capacity + size, .format⟩, sink1,
            ⟨0, [], sink1.written.drop sink.written.length⟩)
        | (sink1, .error _) =>
          -- the source assigns `self.capacity = calculate_capacity(..)` here
          (⟨calculateCapacity s f t, .formatError⟩, sink1,
            ⟨0, [], sink1.written.drop sink.written.length⟩)
    | .capacity =>
      some ({ st with capacity := st.capacity + calculateCapacity s f t },
        sink, ⟨0, [], []⟩)
    | .formatError =>
      some ({ st with capacity := st.capacity + calculateCapacity s f t },
        sink, ⟨0, [], []⟩)
  | .ownedUnsafe size prod =>
    match st.mode with
    | .text buf =>
      some ({ st with mode := .text (buf ++ prod) }, sink, ⟨1, prod, []⟩)
    | .capacity =>
      some ({ st with capacity := st.capacity + size }, sink, ⟨0, [], []⟩)
    | .format =>
      let (sink1, ok) := fmtWriteStr oracle sink prod
      if ok then
        some (⟨st.capacity + size, .format⟩, sink1, ⟨1, [], prod⟩)
      else
        some (⟨st.capacity + size, .formatError⟩, sink1, ⟨1, [], []⟩)
    | .formatError =>
      some ({ st with capacity := st.capacity + size }, sink, ⟨0, [], []⟩)

/-- Run a build routine — its ordered list of appends — from a given builder
state and sink. -/
def runOps (oracle : Nat → Bool) (ops : List SOp) (st : SBuilder)
    (sink : FmtSink) : Option (SBuilder × FmtSink) :=
  match ops with
  | [] => some (st, sink)
  | op :: rest =>
    match appendStep oracle st sink op with
    | none => none
    | some (st1, sink1, _) => runOps oracle rest st1 sink1

/-- Capacity an op contributes during the Measuring pass. -/
def measureOp : SOp → Nat
  | .value v => v.byteLen
  | .withReplace s f t => calculateCapacity s f t
  | .ownedUnsafe size _ => size

/-- Total capacity of the Measuring pass. -/
def measureTotal (ops : List SOp) : Nat := (ops.map measureOp).sum

/-- Bytes an op pushes during the Filling pass (`none`: the loop diverges). -/
def fillOp : SOp → Option Str
  | .value v => some v.out
  | .withReplace s f t => replaceGo (s.length + 1) s f t
  | .ownedUnsafe _ prod => some prod

/-- A dead oracle for passes that never touch a formatter. -/
def orc0 : Nat → Bool := fun _ => false

/-- The empty external sink. -/
def sink0 : FmtSink := ⟨[], 0⟩

/-- `StringBuilder::build` (lib.rs 566-585), also reporting how many times
the build routine was invoked: Measuring pass, exact-capacity allocation
(the oracle decides whether `try_reserve_exact` succeeds; on failure the
error returns immediately), then the Filling pass over the same routine. -/
def stringBuildRuns (allocOk : Nat → Bool) (ops : List SOp) :
    Option (Except Unit Str) × Nat :=
  match runOps orc0 ops ⟨0, .capacity⟩ sink0 with
  | none => (none, 1)
  | some (st1, _) =>
    if allocOk st1.capacity then
      match runOps orc0 ops ⟨st1.capacity, .text []⟩ sink0 with
      | none => (none, 2)
      | some (st2, _) =>
        match st2.mode with
        | .text buf => (some (.ok buf), 2)
        | _ => (none, 2)
    else (some (.error ()), 1)

/-- `StringBuilder::build` proper. -/
def stringBuild (allocOk : Nat → Bool) (ops : List SOp) :
    Option (Except Unit Str) :=
  (stringBuildRuns allocOk ops).1

/-- `StringBuilder::fmt` (lib.rs 541-561): run the routine once in
Formatting mode, then surface `Ok` or the stored error by the final mode. -/
def stringFmt (oracle : Nat → Bool) (ops : List SOp) :
    Option (Except Unit Unit × FmtSink × SBuilder) :=
  match runOps oracle ops ⟨0, .format⟩ sink0 with
  | none => none
  | some (st, sink) =>
    match st.mode with
    | .format => some (.ok (), sink, st)
    | .formatError => some (.error (), sink, st)
    | _ => none

/-- A `BytesAppendableValue`: reported `byte_len` and pushed bytes. -/
structure BVal where
  byteLen : Nat
  out : Str
  deriving DecidableEq, Repr

/-- One append of a `BytesBuilder` routine: generic `append`, or the
endian-aware `append_be` / `append_le` of a `width`-byte integer. -/
inductive BOp where
  | value : BVal → BOp
  | be : Nat → Nat → BOp
  | le : Nat → Nat → BOp
  deriving DecidableEq, Repr

/-- `byte_len` of a bytes op (`size_of` for the endian ops, lib.rs 31-34). -/
def bOpLen : BOp → Nat
  | .value v => v.byteLen
  | .be w _ => w
  | .le w _ => w

/-- Bytes a bytes op pushes (`to_be_bytes` / `to_le_bytes` for the endian
ops, lib.rs 36-42). -/
def bOpBytes : BOp → Str
  | .value v => v.out
  | .be w n => beBytes w n
  | .le w n => leBytes w n

/-- A `BytesBuilder` (lib.rs 736-739): `bytes = none` is the Measuring pass,
`bytes = some buf` the Filling pass. -/
structure BBuilder where
  capacity : Nat
  bytes : Option Str
  deriving DecidableEq, Repr

/-- One bytes append (lib.rs 254-264, 787-804); also returns the bytes
pushed by this step. -/
def bAppendStep (st : BBuilder) (op : BOp) : BBuilder × Str :=
  match st.bytes with
  | some b => ({ st with bytes := some (b ++ bOpBytes op) }, bOpBytes op)
  | none => ({ st with capacity := st.capacity + bOpLen op }, [])

/-- Run a bytes build routine. -/
def bRunOps (ops : List BOp) (st : BBuilder) : BBuilder :=
  match ops with
  | [] => st
  | op :: rest => bRunOps rest (bAppendStep st op).1

/-- Total Measuring-pass capacity of a bytes routine. -/
def bMeasureTotal (ops : List BOp) : Nat := (ops.map bOpLen).sum

/-- `BytesBuilder::build` (lib.rs 743-762) with a routine-invocation
count: Measuring pass, fallible exact-capacity allocation, Filling pass. -/
def bytesBuildRuns (allocOk : Nat → Bool) (ops : List BOp) :
    Except Unit Str × Nat :=
  let st1 := bRunOps ops ⟨0, none⟩
  if allocOk st1.capacity then
    let st2 := bRunOps ops ⟨st1.capacity, some []⟩
    (.ok (st2.bytes.getD []), 2)
  else (.error (), 1)

/-- `BytesBuilder::build` proper. -/
def bytesBuild (allocOk : Nat → Bool) (ops : List BOp) : Except Unit Str :=
  (bytesBuildRuns allocOk ops).1

/-- Bytes the Filling pass appends for a whole routine (each op's fill
output, concatenated). -/
def fillConcat (ops : List SOp) : Str :=
  (ops.map (fun op => (fillOp op).getD [])).flatten

/-- Bytes a whole bytes routine pushes during the Filling pass. -/
def bConcat (ops : List BOp) : Str := (ops.map bOpBytes).flatten

/-- Sum of the `byte_len`s of a sequence of string values. -/
def svalLenTotal (vals : List SVal) : Nat := (vals.map SVal.byteLen).sum

/-- Concatenated output of a sequence of string values. -/
def svalOutConcat (vals : List SVal) : Str := (vals.map SVal.out).flatten

/-- Number of consecutive successful `write_str` calls starting at write
index `start`, over the next `n` writes, as decided by the oracle. -/
def okRun (oracle : Nat → Bool) (start : Nat) : Nat → Nat
  | 0 => 0
  | n + 1 => if oracle start then 0 else okRun oracle (start + 1) n + 1

/-- Modelled from the spec: the Deferred/Cached Builder Wrapper (spec §4.4)
is not part of the sources under src/; it owns a capturable build routine
(modelled by its list of appends) plus a memo cell holding the previously
computed capacity, where 0 means "not yet computed". -/
structure DeferredBuilder where
  ops : List SOp
  memo : Nat
  deriving DecidableEq, Repr

/-- Modelled from the spec: `capacity()` returns the memoized value if
non-zero; otherwise runs the wrapped routine once in Measuring mode, stores
and returns the result.  Also reports how many times the routine ran. -/
def capacityCall (b : DeferredBuilder) : Nat × DeferredBuilder × Nat :=
  if b.memo ≠ 0 then (b.memo, b, 0)
  else
    let c :=
      match runOps orc0 b.ops ⟨0, .capacity⟩ sink0 with
      | some (st, _) => st.capacity
      | none => 0
    (c, { b with memo := c }, 1)

/-- The (value, routine-runs) pairs observed over `k` successive
`capacity()` invocations. -/
def callResults : DeferredBuilder → Nat → List (Nat × Nat)
  | _, 0 => []
  | b, k + 1 =>
    let r := capacityCall b
    (r.1, r.2.2) :: callResults r.2.1 k

/-! ## Lemmas about the scan loops -/

theorem findSub_bound {s pat : Str} {i : Nat} (h : findSub s pat = some i) :
    i + pat.length ≤ s.length := by
  induction s generalizing i with
  | nil =>
    unfold findSub at h
    split at h
    · rename_i hp
      have : pat <+: ([] : Str) := List.isPrefixOf_iff_prefix.mp hp
      have := this.length_le
      simp at h
      omega
    · simp at h
  | cons c rest ih =>
    unfold findSub at h
    split at h
    · rename_i hp
      have : pat <+: (c :: rest) := List.isPrefixOf_iff_prefix.mp hp
      have := this.length_le
      simp at h
      simp [← h] at *
      omega
    · rcases Option.map_eq_some'.mp h with ⟨j, hj, rfl⟩
      have := ih hj
      simp
      omega

theorem replaceGo_isSome {f : Str} (hf : f ≠ []) :
    ∀ fuel rest t, rest.length < fuel → (replaceGo fuel rest f t).isSome := by
  intro fuel
  induction fuel with
  | zero => intro rest t h; omega
  | succ n ih =>
    intro rest t h
    unfold replaceGo
    cases hfind : findSub rest f with
    | none => simp
    | some pos =>
      have hb := findSub_bound hfind
      have hflen : 1 ≤ f.length := by
        cases f with
        | nil => exact absurd rfl hf
        | cons a l => simp
      have hdrop : (rest.drop (pos + f.length)).length < n := by
        rw [List.length_drop]
        omega
      have := ih (rest.drop (pos + f.length)) t hdrop
      simp only [Option.isSome_map']
      exact this

theorem fmtReplaceGo_isSome {f : Str} (hf : f ≠ []) (oracle : Nat → Bool) :
    ∀ fuel sink rest t acc, rest.length < fuel →
      (fmtReplaceGo oracle fuel sink rest f t acc).isSome := by
  intro fuel
  induction fuel with
  | zero => intro sink rest t acc h; omega
  | succ n ih =>
    intro sink rest t acc h
    unfold fmtReplaceGo
    cases hfind : findSub rest f with
    | none =>
      simp only []
      split <;> simp
    | some pos =>
      have hb := findSub_bound hfind
      have hflen : 1 ≤ f.length := by
        cases f with
        | nil => exact absurd rfl hf
        | cons a l => simp
      have hdrop : (rest.drop (pos + f.length)).length < n := by
        rw [List.length_drop]
        omega
      simp only []
      split
      · split
        · exact ih _ _ _ _ hdrop
        · simp
      · simp

/-- C9: for every `source`, `from` and `to` with `from` non-empty,
`append_with_replace` terminates in every mode: the left-to-right scan loops
of the Filling and Formatting branches advance the position by at least
`from.length > 0` each iteration, so fuel `source.length + 1` always
suffices. -/
theorem append_with_replace_terminates (s f t : Str) (oracle : Nat → Bool)
    (st : SBuilder) (sink : FmtSink) (hf : f ≠ []) :
    (appendStep oracle st sink (.withReplace s f t)).isSome := by
  unfold appendStep
  cases hm : st.mode with
  | capacity => simp
  | formatError => simp
  | text buf =>
    simp only [Option.isSome_map']
    exact replaceGo_isSome hf (s.length + 1) s t (by omega)
  | format =>
    simp only [Option.isSome_map']
    exact fmtReplaceGo_isSome hf oracle (s.length + 1) sink s t 0 (by omega)

/-- Closed instance of `append_with_replace_terminates`: replacing `"/"` by
`"+"` in `"a/b"` terminates in the Filling mode. -/
theorem append_with_replace_terminates_witness :
    (appendStep orc0 ⟨0, .text []⟩ sink0
      (.withReplace [97, 47, 98] [47] [43])).isSome :=
  append_with_replace_terminates [97, 47, 98] [47] [43] orc0
    ⟨0, .text []⟩ sink0 (by decide)

/-! ## Concrete evaluations settling the observed defects -/

/-- C2: the Measuring pass of `append_with_replace("abab", "a", "xy")`
counts occurrences of the source within itself (always 1), yielding
capacity 5, while the spec formula (occurrences of `from` within `source`,
here 2) and the Filling pass both give 6 bytes — so the code contradicts
the `debug_assert_eq!(state.capacity, text.len())` in `build`. -/
theorem replace_capacity_counts_source_self :
    calculateCapacity [97, 98, 97, 98] [97] [120, 121] = 5 ∧
    specOccurrences [97, 98, 97, 98] [97] = 2 ∧
    specReplaceCapacity [97, 98, 97, 98] [97] [120, 121] = 6 ∧
    fillOp (.withReplace [97, 98, 97, 98] [97] [120, 121]) =
      some [120, 121, 98, 120, 121, 98] := by
  decide

/-- C3: for the negative value `-5` the `count_digits!` loop
(`while value > 0`) never runs, so the generated `byte_len` reports 0,
while `push_to` writes the two bytes `"-5"`. -/
theorem int_byte_len_negative_zero :
    (intSVal (-5)).byteLen = 0 ∧ (intSVal (-5)).out = [45, 53] ∧
    (intSVal (-5)).out.length = 2 := by
  decide

/-- C5: with an empty source, `from = "a"` and `to = "bc"`, the Measuring
pass of `append_with_replace` contributes 1 (again via the self-count of
the source within itself), while the Filling pass pushes nothing and the
Formatting pass writes nothing — contradicting the claim that an empty
source contributes zero length. -/
theorem replace_empty_source_nonzero_capacity :
    calculateCapacity [] [97] [98, 99] = 1 ∧
    fillOp (.withReplace [] [97] [98, 99]) = some [] ∧
    appendStep orc0 ⟨0, .format⟩ sink0 (.withReplace [] [97] [98, 99]) =
      some (⟨0, .format⟩, ⟨[], 1⟩, ⟨0, [], []⟩) := by
  decide

/-- C7: a `BytesBuilder` build appending the 32-bit integer 6 big-endian
then the 32-bit integer 8 little-endian yields `[0,0,0,6, 8,0,0,0]`. -/
theorem bytes_be_le_example :
    bytesBuild (fun _ => true) [.be 4 6, .le 4 8] =
      .ok [0, 0, 0, 6, 8, 0, 0, 0] := by
  rfl

/-! ## The Measuring and Filling passes -/

theorem runOps_capacity (oracle : Nat → Bool) (ops : List SOp) :
    ∀ c sink, runOps oracle ops ⟨c, .capacity⟩ sink =
      some (⟨c + measureTotal ops, .capacity⟩, sink) := by
  induction ops with
  | nil => intro c sink; simp [runOps, measureTotal]
  | cons op rest ih =>
    intro c sink
    cases op with
    | value v =>
      simp [runOps, appendStep, ih, measureTotal, measureOp, Nat.add_assoc]
    | withReplace s f t =>
      simp [runOps, appendStep, ih, measureTotal, measureOp, Nat.add_assoc]
    | ownedUnsafe size prod =>
      simp [runOps, appendStep, ih, measureTotal, measureOp, Nat.add_assoc]

theorem runOps_text (oracle : Nat → Bool) (ops : List SOp)
    (h : ∀ op ∈ ops, (fillOp op).isSome) :
    ∀ c buf sink, runOps oracle ops ⟨c, .text buf⟩ sink =
      some (⟨c, .text (buf ++ fillConcat ops)⟩, sink) := by
  induction ops with
  | nil => intro c buf sink; simp [runOps, fillConcat]
  | cons op rest ih =>
    intro c buf sink
    have hrest : ∀ o ∈ rest, (fillOp o).isSome :=
      fun o ho => h o (List.mem_cons_of_mem _ ho)
    cases op with
    | value v =>
      simp [runOps, appendStep, ih hrest, fillConcat, fillOp,
        List.append_assoc]
    | withReplace s f t =>
      have hop := h _ (List.mem_cons_self _ _)
      rcases Option.isSome_iff_exists.mp hop with ⟨w, hw⟩
      simp only [fillOp] at hw
      simp [runOps, appendStep, hw, ih hrest, fillConcat, fillOp,
        List.append_assoc]
    | ownedUnsafe size prod =>
      simp [runOps, appendStep, ih hrest, fillConcat, fillOp,
        List.append_assoc]

theorem fillConcat_length (ops : List SOp)
    (h : ∀ op ∈ ops, ∃ w, fillOp op = some w ∧ w.length = measureOp op) :
    (fillConcat ops).length = measureTotal ops := by
  induction ops with
  | nil => simp [fillConcat, measureTotal]
  | cons op rest ih =>
    rcases h op (List.mem_cons_self _ _) with ⟨w, hw, hlen⟩
    have hrest := fun o ho => h o (List.mem_cons_of_mem _ ho)
    have hstep : fillConcat (op :: rest) =
        (fillOp op).getD [] ++ fillConcat rest := by
      simp [fillConcat]
    rw [hstep, List.length_append, hw, ih hrest]
    simp only [Option.getD_some, hlen, measureTotal, List.map_cons,
      List.sum_cons]

theorem bRunOps_none (ops : List BOp) :
    ∀ c, bRunOps ops ⟨c, none⟩ = ⟨c + bMeasureTotal ops, none⟩ := by
  induction ops with
  | nil => intro c; simp [bRunOps, bMeasureTotal]
  | cons op rest ih =>
    intro c
    simp [bRunOps, bAppendStep, ih, bMeasureTotal, Nat.add_assoc]

theorem bRunOps_some (ops : List BOp) :
    ∀ c buf, bRunOps ops ⟨c, some buf⟩ = ⟨c, some (buf ++ bConcat ops)⟩ := by
  induction ops with
  | nil => intro c buf; simp [bRunOps, bConcat]
  | cons op rest ih =>
    intro c buf
    simp [bRunOps, bAppendStep, ih, bConcat, List.append_assoc]

theorem bConcat_length (ops : List BOp)
    (h : ∀ op ∈ ops, (bOpBytes op).length = bOpLen op) :
    (bConcat ops).length = bMeasureTotal ops := by
  induction ops with
  | nil => simp [bConcat, bMeasureTotal]
  | cons op rest ih =>
    have hop := h op (List.mem_cons_self _ _)
    have hrest := fun o ho => h o (List.mem_cons_of_mem _ ho)
    have hstep : bConcat (op :: rest) = bOpBytes op ++ bConcat rest := by
      simp [bConcat]
    rw [hstep, List.length_append, hop, ih hrest]
    simp only [bMeasureTotal, List.map_cons, List.sum_cons]

/-- C1: for any build routine whose appended values write exactly the
number of bytes their `byte_len` reports, `StringBuilder::build` and
`BytesBuilder::build` (with a succeeding allocation) return a container
whose final length equals the capacity the Measuring pass accumulated. -/
theorem build_length_eq_measured_capacity
    (allocOk ballocOk : Nat → Bool) (ops : List SOp) (bops : List BOp)
    (h1 : ∀ op ∈ ops, ∃ w, fillOp op = some w ∧ w.length = measureOp op)
    (h2 : allocOk (measureTotal ops) = true)
    (h3 : ∀ op ∈ bops, (bOpBytes op).length = bOpLen op)
    (h4 : ballocOk (bMeasureTotal bops) = true) :
    stringBuild allocOk ops = some (.ok (fillConcat ops)) ∧
    (fillConcat ops).length = measureTotal ops ∧
    bytesBuild ballocOk bops = .ok (bConcat bops) ∧
    (bConcat bops).length = bMeasureTotal bops := by
  have hsome : ∀ op ∈ ops, (fillOp op).isSome := by
    intro op hop
    rcases h1 op hop with ⟨w, hw, _⟩
    simp [hw]
  refine ⟨?_, fillConcat_length ops h1, ?_, bConcat_length bops h3⟩
  · unfold stringBuild stringBuildRuns
    rw [runOps_capacity]
    simp only [Nat.zero_add, h2, if_true]
    rw [runOps_text orc0 ops hsome]
    simp
  · unfold bytesBuild bytesBuildRuns
    rw [bRunOps_none]
    simp only [Nat.zero_add, h4, if_true]
    rw [bRunOps_some]
    simp

/-- Closed instance of `build_length_eq_measured_capacity` at a concrete
routine and an always-succeeding allocator. -/
theorem build_length_eq_measured_capacity_witness :
    stringBuild (fun _ => true) [.value ⟨1, [104]⟩] =
      some (.ok (fillConcat [.value ⟨1, [104]⟩])) ∧
    (fillConcat [.value ⟨1, [104]⟩]).length =
      measureTotal [.value ⟨1, [104]⟩] ∧
    bytesBuild (fun _ => true) [.be 4 6] = .ok (bConcat [.be 4 6]) ∧
    (bConcat [.be 4 6]).length = bMeasureTotal [.be 4 6] :=
  build_length_eq_measured_capacity (fun _ => true) (fun _ => true)
    [.value ⟨1, [104]⟩] [.be 4 6]
    (by
      intro op hop
      simp only [List.mem_singleton] at hop
      subst hop
      exact ⟨[104], rfl, rfl⟩)
    rfl
    (by
      intro op hop
      simp only [List.mem_singleton] at hop
      subst hop
      rfl)
    rfl

/-- C6: when the exact-capacity allocation fails, `StringBuilder::build`
and `BytesBuilder::build` return the allocation error immediately — the
build routine has run exactly once and no buffer is returned. -/
theorem build_alloc_failure_single_pass
    (allocOk ballocOk : Nat → Bool) (ops : List SOp) (bops : List BOp)
    (h2 : allocOk (measureTotal ops) = false)
    (h4 : ballocOk (bMeasureTotal bops) = false) :
    stringBuildRuns allocOk ops = (some (.error ()), 1) ∧
    bytesBuildRuns ballocOk bops = (.error (), 1) := by
  constructor
  · unfold stringBuildRuns
    rw [runOps_capacity]
    simp [h2]
  · unfold bytesBuildRuns
    rw [bRunOps_none]
    simp [h4]

/-- Closed instance of `build_alloc_failure_single_pass` with an
always-failing allocator. -/
theorem build_alloc_failure_single_pass_witness :
    stringBuildRuns (fun _ => false) [.value ⟨1, [104]⟩] =
      (some (.error ()), 1) ∧
    bytesBuildRuns (fun _ => false) [.be 4 6] = (.error (), 1) :=
  build_alloc_failure_single_pass (fun _ => false) (fun _ => false)
    [.value ⟨1, [104]⟩] [.be 4 6] rfl rfl

/-- C10: in the Measuring mode every string append (`append`,
`append_with_replace`, `append_owned_unsafe`) and every bytes append
(`append`, `append_be`, `append_le`) only adds to the capacity counter,
runs no producer closure and writes nothing to any container or sink. -/
theorem measuring_mode_frame (oracle : Nat → Bool) (st : SBuilder)
    (sink : FmtSink) (op : SOp) (bst : BBuilder) (bop : BOp)
    (hs : st.mode = .capacity) (hb : bst.bytes = none) :
    appendStep oracle st sink op =
      some (⟨st.capacity + measureOp op, .capacity⟩, sink, ⟨0, [], []⟩) ∧
    st.capacity ≤ st.capacity + measureOp op ∧
    bAppendStep bst bop = (⟨bst.capacity + bOpLen bop, none⟩, []) ∧
    bst.capacity ≤ bst.capacity + bOpLen bop := by
  obtain ⟨cap, mode⟩ := st
  obtain ⟨bcap, bbytes⟩ := bst
  simp only at hs hb
  subst hs
  subst hb
  refine ⟨?_, Nat.le_add_right _ _, ?_, Nat.le_add_right _ _⟩
  · cases op <;> simp [appendStep, measureOp]
  · cases bop <;> simp [bAppendStep, bOpLen]

/-- Closed instance of `measuring_mode_frame`: a Measuring-pass
`append_owned_unsafe` and `append_be`. -/
theorem measuring_mode_frame_witness :
    appendStep orc0 ⟨0, .capacity⟩ sink0 (.ownedUnsafe 3 [1, 2, 3]) =
      some (⟨0 + measureOp (.ownedUnsafe 3 [1, 2, 3]), .capacity⟩, sink0,
        ⟨0, [], []⟩) ∧
    (0 : Nat) ≤ 0 + measureOp (.ownedUnsafe 3 [1, 2, 3]) ∧
    bAppendStep ⟨0, none⟩ (.be 4 6) =
      (⟨0 + bOpLen (.be 4 6), none⟩, []) ∧
    (0 : Nat) ≤ 0 + bOpLen (.be 4 6) :=
  measuring_mode_frame orc0 ⟨0, .capacity⟩ sink0 (.ownedUnsafe 3 [1, 2, 3])
    ⟨0, none⟩ (.be 4 6) rfl rfl

/-! ## The Formatting pass -/

theorem appendStep_formatError (oracle : Nat → Bool) (st : SBuilder)
    (sink : FmtSink) (op : SOp) (hs : st.mode = .formatError) :
    appendStep oracle st sink op =
      some ({ st with capacity := st.capacity + measureOp op }, sink,
        ⟨0, [], []⟩) := by
  obtain ⟨cap, mode⟩ := st
  simp only at hs
  subst hs
  cases op <;> simp [appendStep, measureOp]

theorem runOps_formatError (oracle : Nat → Bool) (ops : List SOp) :
    ∀ c sink, runOps oracle ops ⟨c, .formatError⟩ sink =
      some (⟨c + measureTotal ops, .formatError⟩, sink) := by
  induction ops with
  | nil => intro c sink; simp [runOps, measureTotal]
  | cons op rest ih =>
    intro c sink
    rw [runOps, appendStep_formatError oracle ⟨c, .formatError⟩ sink op rfl]
    simp only []
    rw [ih]
    simp [measureTotal, Nat.add_assoc]

theorem measureTotal_map_value (vs : List SVal) :
    measureTotal (vs.map SOp.value) = svalLenTotal vs := by
  induction vs with
  | nil => simp [measureTotal, svalLenTotal]
  | cons v rest ih => simp [measureTotal, svalLenTotal, measureOp] at ih ⊢; omega

theorem runOps_format (oracle : Nat → Bool) (vals : List SVal) :
    ∀ c acc start,
      runOps oracle (vals.map .value) ⟨c, .format⟩ ⟨acc, start⟩ =
        some (⟨c + svalLenTotal vals,
               if okRun oracle start vals.length < vals.length
               then .formatError else .format⟩,
              ⟨acc ++ svalOutConcat
                 (vals.take (okRun oracle start vals.length)),
               start + (if okRun oracle start vals.length < vals.length
                        then okRun oracle start vals.length + 1
                        else vals.length)⟩) := by
  induction vals with
  | nil =>
    intro c acc start
    simp [runOps, svalLenTotal, svalOutConcat, okRun]
  | cons v vs ih =>
    intro c acc start
    by_cases ho : oracle start
    · have hstep : appendStep oracle ⟨c, .format⟩ ⟨acc, start⟩ (.value v) =
          some (⟨c + v.byteLen, .formatError⟩, ⟨acc, start + 1⟩,
            ⟨0, [], []⟩) := by
        simp [appendStep, fmtWriteStr, ho]
      rw [List.map_cons, runOps, hstep]
      simp only []
      rw [runOps_formatError]
      have hk : okRun oracle start (vs.length + 1) = 0 := by
        simp [okRun, ho]
      simp [hk, svalLenTotal, svalOutConcat, measureTotal_map_value,
        Nat.add_assoc]
    · have hstep : appendStep oracle ⟨c, .format⟩ ⟨acc, start⟩ (.value v) =
          some (⟨c + v.byteLen, .format⟩, ⟨acc ++ v.out, start + 1⟩,
            ⟨0, [], v.out⟩) := by
        simp [appendStep, fmtWriteStr, ho]
      rw [List.map_cons, runOps, hstep]
      simp only []
      rw [ih]
      have hk : okRun oracle start (vs.length + 1) =
          okRun oracle (start + 1) vs.length + 1 := by
        simp [okRun, ho]
      rw [List.length_cons, hk]
      by_cases hlt : okRun oracle (start + 1) vs.length < vs.length
      · simp [hlt, Nat.succ_lt_succ_iff, svalLenTotal, svalOutConcat,
          List.take_succ_cons, Nat.add_assoc]
        omega
      · have hge : ¬ okRun oracle (start + 1) vs.length + 1 < vs.length + 1 := by
          omega
        simp [hlt, hge, svalLenTotal, svalOutConcat, List.take_succ_cons,
          Nat.add_assoc]
        omega

/-- C4: during `StringBuilder::fmt`, writes succeed up to the first failing
one (index `okRun oracle 0 n`): the sink holds exactly the outputs before
it, capacity still accumulates every `byte_len`, the final mode is the
failed one exactly when some write failed, and `fmt` returns the stored
error then and `Ok` otherwise; moreover any append in the failed mode
leaves the mode failed, writes nothing and only adds `byte_len` to the
capacity. -/
theorem fmt_error_short_circuit (oracle : Nat → Bool) (vals : List SVal) :
    stringFmt oracle (vals.map .value) =
      some (if okRun oracle 0 vals.length < vals.length then .error ()
            else .ok (),
            ⟨svalOutConcat (vals.take (okRun oracle 0 vals.length)),
             if okRun oracle 0 vals.length < vals.length
             then okRun oracle 0 vals.length + 1 else vals.length⟩,
            ⟨svalLenTotal vals,
             if okRun oracle 0 vals.length < vals.length
             then .formatError else .format⟩) ∧
    (∀ st sink op, st.mode = .formatError →
      appendStep oracle st sink op =
        some ({ st with capacity := st.capacity + measureOp op }, sink,
          ⟨0, [], []⟩)) := by
  refine ⟨?_, fun st sink op hm => appendStep_formatError oracle st sink op hm⟩
  unfold stringFmt sink0
  rw [runOps_format]
  by_cases h : okRun oracle 0 vals.length < vals.length <;> simp [h]

/-- Closed instance of `fmt_error_short_circuit`: with the second write
failing, the sink holds only the first value's output, the error is
returned, and a later append in the failed mode only bumps capacity. -/
theorem fmt_error_short_circuit_witness :
    stringFmt (fun i => i == 1)
        [SOp.value ⟨1, [97]⟩, SOp.value ⟨1, [98]⟩, SOp.value ⟨1, [99]⟩] =
      some (.error (), ⟨[97], 2⟩, ⟨3, .formatError⟩) ∧
    appendStep (fun i => i == 1) ⟨5, .formatError⟩ sink0
        (.value ⟨1, [97]⟩) =
      some (⟨6, .formatError⟩, sink0, ⟨0, [], []⟩) := by
  have h := fmt_error_short_circuit (fun i => i == 1)
    [⟨1, [97]⟩, ⟨1, [98]⟩, ⟨1, [99]⟩]
  exact ⟨h.1.trans (by rfl),
    (h.2 ⟨5, .formatError⟩ sink0 (.value ⟨1, [97]⟩) rfl).trans (by rfl)⟩

/-! ## The Deferred Builder wrapper (modelled from the spec) -/

theorem callResults_memoized (b : DeferredBuilder) (h : b.memo ≠ 0) :
    ∀ k, callResults b k = List.replicate k (b.memo, 0) := by
  have hcall : capacityCall b = (b.memo, b, 0) := by
    simp [capacityCall, h]
  intro k
  induction k with
  | zero => simp [callResults]
  | succ n ih => simp [callResults, hcall, ih, List.replicate_succ]

/-- C8: a Deferred Builder whose routine measures a non-zero capacity
computes it once: the first `capacity()` call runs the wrapped routine in
Measuring mode and memoizes the result, and every later call returns the
same non-zero value without running the routine again. -/
theorem deferred_capacity_memoized (ops : List SOp) (k : Nat)
    (h : measureTotal ops ≠ 0) :
    callResults ⟨ops, 0⟩ (k + 1) =
      (measureTotal ops, 1) :: List.replicate k (measureTotal ops, 0) := by
  have hcall : capacityCall ⟨ops, 0⟩ =
      (measureTotal ops, ⟨ops, measureTotal ops⟩, 1) := by
    unfold capacityCall
    rw [runOps_capacity]
    simp
  simp [callResults, hcall,
    callResults_memoized ⟨ops, measureTotal ops⟩ h]

/-- Closed instance of `deferred_capacity_memoized`: three `capacity()`
calls on a one-byte routine yield value 1 with the routine run once. -/
theorem deferred_capacity_memoized_witness :
    callResults ⟨[SOp.value ⟨1, [97]⟩], 0⟩ 3 = [(1, 1), (1, 0), (1, 0)] :=
  (deferred_capacity_memoized [SOp.value ⟨1, [97]⟩] 2 (by decide)).trans
    (by decide)

end CapacityBuilder
